import Mathlib

/-!
Shallow embedding of the Movie Store (`src/index.js`, class `MovieAPI`).

Modelling conventions:
* A JS movie object is an open record.  The known fields (`id`, `rating`,
  `title`, `description`, `subtitle`, `thumb`, `genre`) are `Option`-valued
  (`none` = the field is absent from the object); any extra caller-supplied
  fields are carried verbatim in `extra`.
* JS numbers used as ids are modelled by `Nat`, ratings by `ℚ`.
* `Math.random()` is modelled by an explicit parameter: the constructor takes
  `gen : Nat → ℚ`, the value returned by its i-th `generateRating()` call, and
  `addMovie` takes the value `rv` returned by its single call.
* `console.log` output is returned as a `List String` alongside the new state.
* `Array.prototype.sort(cmp)` with the source's two-valued comparators
  (`cmp a b = 1` if `gt`, else `-1`) is modelled as a stable insertion sort
  that places `a` before `b` exactly when `cmp a b ≤ 0`, i.e. when `¬ gt a b`.
-/

/-- A movie record: the open JS object.  `none` means the field is absent. -/
structure Movie where
  id : Option Nat
  rating : Option ℚ
  title : Option String
  description : Option String
  subtitle : Option (List String)
  thumb : Option String
  genre : Option String
  extra : List (String × String)
deriving Repr, DecidableEq

/-- The `MovieAPI` instance state: the `idCount` counter and the array. -/
structure MovieAPI where
  idCount : Nat
  movies : List Movie
deriving Repr, DecidableEq

/-- `Math.round`: round half toward positive infinity. -/
def jsRound (q : ℚ) : ℤ := ⌊q + 1 / 2⌋

/-- `generateRating = () => Math.round((Math.random() * (5 - 1) + 1) * 10) / 10`,
with `r` standing for the `Math.random()` result. -/
def generateRating (r : ℚ) : ℚ := (jsRound ((r * (5 - 1) + 1) * 10) : ℚ) / 10

/-- The object literal `{ id: idv, rating: rv, ...m }`: spread fields override
the earlier same-named properties, so a caller-supplied `id`/`rating` wins. -/
def stamp (idv : Nat) (rv : ℚ) (m : Movie) : Movie :=
  { m with id := some (m.id.getD idv), rating := some (m.rating.getD rv) }

/-- The constructor's `for (const key in movies)` loop: stamps each entry with
the current `idCount` and a generated rating, incrementing the counter.
Returns the final counter and the stamped list. -/
def constructLoop (gen : Nat → ℚ) : Nat → List Movie → Nat × List Movie
  | idCount, [] => (idCount, [])
  | idCount, m :: ms =>
    let rest := constructLoop gen (idCount + 1) ms
    (rest.1, stamp idCount (gen idCount) m :: rest.2)

/-- `new MovieAPI(movies)` where `gen i` is the value returned by the i-th
`generateRating()` call. -/
def construct (ms : List Movie) (gen : Nat → ℚ) : MovieAPI :=
  { idCount := (constructLoop gen 0 ms).1, movies := (constructLoop gen 0 ms).2 }

/-- `fetchAllMovies = () => this.movies`. -/
def fetchAllMovies (s : MovieAPI) : List Movie := s.movies

/-- `fetchMoviesByGenre = (genre) => this.movies.filter((movie) => movie.genre === genre)`.
The argument may itself be absent (`undefined`), modelled as `none`;
`===` on two `undefined` operands is `true`. -/
def fetchMoviesByGenre (s : MovieAPI) (genre : Option String) : List Movie :=
  s.movies.filter (fun m => m.genre == genre)

/-- `deleteMovieById`: a guard (`find` by `===` on id), a log on failure,
otherwise `filter` keeps the movies whose id differs. -/
def deleteMovieById (s : MovieAPI) (idv : Nat) : MovieAPI × List String :=
  if (s.movies.find? (fun m => m.id == some idv)).isNone then
    (s, ["Invalid movie id"])
  else
    ({ s with movies := s.movies.filter (fun m => !(m.id == some idv)) }, [])

/-- The destructuring `({ subtitle, thumb, ...rest }) => rest`. -/
def stripSubThumb (m : Movie) : Movie := { m with subtitle := none, thumb := none }

/-- `fetchMoviesNoSubThumb = () => this.movies.map(({subtitle, thumb, ...rest}) => rest)`. -/
def fetchMoviesNoSubThumb (s : MovieAPI) : List Movie := s.movies.map stripSubThumb

/-- JS `x > y` on two possibly-absent values of an ordered type: `true` only
when both operands are present and the first is strictly greater (any
comparison involving `undefined` is `false`). -/
def jsGt {α : Type} [LinearOrder α] : Option α → Option α → Bool
  | some a, some b => decide (b < a)
  | _, _ => false

/-- `(m1, m2) => (m1.title > m2.title ? 1 : -1)` says "keep `m1` first" exactly
when it returns -1, i.e. when `¬ (m1.title > m2.title)`. -/
def byTitleLe (m1 m2 : Movie) : Bool := !(jsGt m1.title m2.title)

/-- `(m1, m2) => (m1.rating > m2.rating ? 1 : -1)`, as a keep-first predicate. -/
def byRatingLe (m1 m2 : Movie) : Bool := !(jsGt m1.rating m2.rating)

/-- `(m1, m2) => (m1.rating < m2.rating ? 1 : -1)`, as a keep-first predicate
(used by `printTop3` for a descending sort). -/
def byRatingGe (m1 m2 : Movie) : Bool := !(jsGt m2.rating m1.rating)

/-- Stable insertion of `a`: `a` goes before the first `b` with `le a b`. -/
def insertLe {α : Type} (le : α → α → Bool) (a : α) : List α → List α
  | [] => [a]
  | b :: l => if le a b then a :: b :: l else b :: insertLe le a l

/-- Stable sort placing `x` before `y` when `le x y`; the model of
`Array.prototype.sort` with the source's comparators. -/
def sortLe {α : Type} (le : α → α → Bool) : List α → List α
  | [] => []
  | a :: l => insertLe le a (sortLe le l)

/-- `fetchMoviesSortedByName`: sorts `this.movies` in place by title and
returns the (same) sorted array. -/
def fetchMoviesSortedByName (s : MovieAPI) : MovieAPI × List Movie :=
  ({ s with movies := sortLe byTitleLe s.movies }, sortLe byTitleLe s.movies)

/-- `fetchTopBot2`: sorts `this.movies` ascending by rating in place, then
returns `sorted.slice(-2).concat(sorted.slice(0, 2))`. -/
def fetchTopBot2 (s : MovieAPI) : MovieAPI × List Movie :=
  ({ s with movies := sortLe byRatingLe s.movies },
    (sortLe byRatingLe s.movies).drop ((sortLe byRatingLe s.movies).length - 2)
      ++ (sortLe byRatingLe s.movies).take 2)

/-- `printTop3`: sorts descending by rating in place, logs the first 3
(the logged list is returned as the second component). -/
def printTop3 (s : MovieAPI) : MovieAPI × List Movie :=
  ({ s with movies := sortLe byRatingGe s.movies },
    (sortLe byRatingGe s.movies).take 3)

/-- `printBottomToTopRated`: sorts ascending by rating in place and logs it. -/
def printBottomToTopRated (s : MovieAPI) : MovieAPI × List Movie :=
  ({ s with movies := sortLe byRatingLe s.movies }, sortLe byRatingLe s.movies)

/-- `addMovie`: pushes `{ id: this.idCount, rating: this.generateRating(), ...movie }`
and increments the counter; `rv` is the `generateRating()` result. -/
def addMovie (s : MovieAPI) (rv : ℚ) (m : Movie) : MovieAPI :=
  { idCount := s.idCount + 1, movies := s.movies ++ [stamp s.idCount rv m] }

/-- `findMovieById`: first match by id, or a log plus an absent result. -/
def findMovieById (s : MovieAPI) (idv : Nat) : Option Movie × List String :=
  match s.movies.find? (fun m => m.id == some idv) with
  | some m => (some m, [])
  | none => (none, ["Invalid movie id"])

/-- `Array.prototype.findIndex`, with `none` for the -1 result. -/
def findIndex {α : Type} (p : α → Bool) : List α → Option Nat
  | [] => none
  | a :: l => if p a then some 0 else (findIndex p l).map (· + 1)

/-- `this.movies[i].title = title`: overwrite one field in place. -/
def setTitle (t : String) (m : Movie) : Movie := { m with title := some t }

/-- Apply `f` to the element at index `i`, if any. -/
def modifyAt {α : Type} (f : α → α) : Nat → List α → List α
  | _, [] => []
  | 0, a :: l => f a :: l
  | n + 1, a :: l => a :: modifyAt f n l

/-- `editMovieTitleById`: `findIndex` by id, log when -1, otherwise overwrite
that record's title in place. -/
def editMovieTitleById (s : MovieAPI) (idv : Nat) (t : String) : MovieAPI × List String :=
  match findIndex (fun m => m.id == some idv) s.movies with
  | none => (s, ["Invalid movie id"])
  | some i => ({ s with movies := modifyAt (setTitle t) i s.movies }, [])

/-- Iterated `addMovie`, each call with its own `generateRating()` result. -/
def addAll : MovieAPI → List (ℚ × Movie) → MovieAPI
  | s, [] => s
  | s, (rv, m) :: rest => addAll (addMovie s rv m) rest

/-- The states reachable through the API when every caller-supplied record
satisfies `ok`: an initial `construct` followed by any sequence of the
mutating/sorting operations. -/
inductive ReachesVia (ok : Movie → Prop) : MovieAPI → Prop where
  | init (ms : List Movie) (gen : Nat → ℚ) (h : ∀ m ∈ ms, ok m) :
      ReachesVia ok (construct ms gen)
  | add {s : MovieAPI} (rv : ℚ) (m : Movie) (h : ok m) :
      ReachesVia ok s → ReachesVia ok (addMovie s rv m)
  | del {s : MovieAPI} (idv : Nat) :
      ReachesVia ok s → ReachesVia ok (deleteMovieById s idv).1
  | edit {s : MovieAPI} (idv : Nat) (t : String) :
      ReachesVia ok s → ReachesVia ok (editMovieTitleById s idv t).1
  | sortName {s : MovieAPI} :
      ReachesVia ok s → ReachesVia ok (fetchMoviesSortedByName s).1
  | topBot {s : MovieAPI} :
      ReachesVia ok s → ReachesVia ok (fetchTopBot2 s).1
  | top3 {s : MovieAPI} :
      ReachesVia ok s → ReachesVia ok (printTop3 s).1
  | botToTop {s : MovieAPI} :
      ReachesVia ok s → ReachesVia ok (printBottomToTopRated s).1

/-- The states reachable with arbitrary caller-supplied records. -/
def Reaches : MovieAPI → Prop := ReachesVia (fun _ => True)

/-- A movie object with no fields at all (`{}`). -/
def mPlain : Movie :=
  { id := none, rating := none, title := none, description := none,
    subtitle := none, thumb := none, genre := none, extra := [] }

/-- A caller-supplied movie object that already carries `id: 99`. -/
def mId99 : Movie := { mPlain with id := some 99 }

/-- A caller-supplied movie object that already carries `id: 0`. -/
def mId0 : Movie := { mPlain with id := some 0 }

/-- A constant stand-in for the stream of `generateRating()` results. -/
def gen3 : Nat → ℚ := fun _ => 3

/-- C6: every value `generateRating` can return lies in [1, 5] and is an
integer multiple of 1/10 (one decimal digit), for every value of the
underlying random source `r ∈ [0, 1)`. -/
theorem c6_generateRating_range (r : ℚ) (h0 : 0 ≤ r) (h1 : r < 1) :
    1 ≤ generateRating r ∧ generateRating r ≤ 5 ∧
      ∃ k : ℤ, generateRating r * 10 = (k : ℚ) := by
  have hlo : (10 : ℤ) ≤ jsRound ((r * (5 - 1) + 1) * 10) := by
    rw [jsRound, Int.le_floor]
    push_cast
    linarith
  have hhi : jsRound ((r * (5 - 1) + 1) * 10) ≤ 50 := by
    have : jsRound ((r * (5 - 1) + 1) * 10) < 51 := by
      rw [jsRound, Int.floor_lt]
      push_cast
      linarith
    omega
  have hlo' : (10 : ℚ) ≤ (jsRound ((r * (5 - 1) + 1) * 10) : ℚ) := by
    exact_mod_cast hlo
  have hhi' : ((jsRound ((r * (5 - 1) + 1) * 10) : ℤ) : ℚ) ≤ 50 := by
    exact_mod_cast hhi
  refine ⟨?_, ?_, ⟨jsRound ((r * (5 - 1) + 1) * 10), ?_⟩⟩
  · rw [generateRating, le_div_iff₀ (by norm_num : (0:ℚ) < 10)]; linarith
  · rw [generateRating, div_le_iff₀ (by norm_num : (0:ℚ) < 10)]; linarith
  · rw [generateRating]; field_simp

/-- Witness for C6 at the concrete random value 0. -/
theorem c6_generateRating_range_witness :
    1 ≤ generateRating 0 ∧ generateRating 0 ≤ 5 ∧
      ∃ k : ℤ, generateRating 0 * 10 = (k : ℚ) :=
  c6_generateRating_range 0 (le_refl 0) (by norm_num)

/-- C10: fetching by an absent (`undefined`) genre argument returns exactly the
records whose own `genre` field is absent, because `===` compares the absent
argument equal to an absent field. -/
theorem c10_fetchByGenre_absent (s : MovieAPI) :
    fetchMoviesByGenre s none = s.movies.filter (fun m => m.genre.isNone) := by
  rw [fetchMoviesByGenre]
  apply List.filter_congr
  intro m _
  cases m.genre <;> rfl

/-- C8: the projection has the same length and the same ids in the same order
as `fetchAllMovies`, with `subtitle` and `thumb` absent from every element and
every other field (including the open `extra` fields) unchanged. -/
theorem c8_projection (s : MovieAPI) :
    (fetchMoviesNoSubThumb s).length = (fetchAllMovies s).length ∧
    (fetchMoviesNoSubThumb s).map (fun m => m.id)
      = (fetchAllMovies s).map (fun m => m.id) ∧
    List.Forall₂ (fun o a => o.subtitle = none ∧ o.thumb = none ∧
        o.id = a.id ∧ o.rating = a.rating ∧ o.title = a.title ∧
        o.description = a.description ∧ o.genre = a.genre ∧ o.extra = a.extra)
      (fetchMoviesNoSubThumb s) (fetchAllMovies s) := by
  refine ⟨by simp [fetchMoviesNoSubThumb, fetchAllMovies], ?_, ?_⟩
  · simp [fetchMoviesNoSubThumb, fetchAllMovies, stripSubThumb]
  · rw [fetchMoviesNoSubThumb, fetchAllMovies]
    induction s.movies with
    | nil => simp
    | cons a l ih => exact List.Forall₂.cons (by simp [stripSubThumb]) ih

theorem insertLe_perm {α : Type} (le : α → α → Bool) (a : α) (l : List α) :
    (insertLe le a l).Perm (a :: l) := by
  induction l with
  | nil => exact List.Perm.refl _
  | cons b l ih =>
    rw [insertLe]
    by_cases h : le a b
    · simp [h]
    · simp only [h, if_false]
      exact (ih.cons b).trans (List.Perm.swap a b l)

theorem sortLe_perm {α : Type} (le : α → α → Bool) (l : List α) :
    (sortLe le l).Perm l := by
  induction l with
  | nil => exact List.Perm.refl _
  | cons a l ih => exact (insertLe_perm le a (sortLe le l)).trans (ih.cons a)

theorem mem_sortLe {α : Type} {le : α → α → Bool} {l : List α} {x : α} :
    x ∈ sortLe le l ↔ x ∈ l :=
  (sortLe_perm le l).mem_iff

theorem length_sortLe {α : Type} (le : α → α → Bool) (l : List α) :
    (sortLe le l).length = l.length :=
  (sortLe_perm le l).length_eq

theorem insertLe_pairwise {α : Type} (le : α → α → Bool) (a : α) (l : List α)
    (htot : ∀ b ∈ l, le a b = true ∨ le b a = true)
    (htrans : ∀ b ∈ l, ∀ c ∈ l, le a b = true → le b c = true → le a c = true)
    (hl : List.Pairwise (fun x y => le x y = true) l) :
    List.Pairwise (fun x y => le x y = true) (insertLe le a l) := by
  induction l with
  | nil => simp [insertLe]
  | cons b l ih =>
    rw [insertLe]
    rcases List.pairwise_cons.mp hl with ⟨hb, hl'⟩
    by_cases h : le a b
    · simp only [h, if_true]
      refine List.pairwise_cons.mpr ⟨?_, hl⟩
      intro y hy
      rcases List.mem_cons.mp hy with rfl | hy
      · exact h
      · exact htrans b (List.mem_cons_self b l) y (List.mem_cons_of_mem b hy) h (hb y hy)
    · simp only [h, if_false]
      refine List.pairwise_cons.mpr ⟨?_, ?_⟩
      · intro y hy
        rcases List.mem_cons.mp ((insertLe_perm le a l).mem_iff.mp hy) with rfl | hyl
        · rcases htot b (List.mem_cons_self b l) with h1 | h1
          · exact absurd h1 h
          · exact h1
        · exact hb y hyl
      · exact ih (fun c hc => htot c (List.mem_cons_of_mem b hc))
          (fun c hc d hd => htrans c (List.mem_cons_of_mem b hc) d (List.mem_cons_of_mem b hd))
          hl'

theorem sortLe_pairwise {α : Type} (le : α → α → Bool) (l : List α)
    (htot : ∀ a ∈ l, ∀ b ∈ l, le a b = true ∨ le b a = true)
    (htrans : ∀ a ∈ l, ∀ b ∈ l, ∀ c ∈ l,
      le a b = true → le b c = true → le a c = true) :
    List.Pairwise (fun x y => le x y = true) (sortLe le l) := by
  induction l with
  | nil => simp [sortLe]
  | cons a l ih =>
    rw [sortLe]
    refine insertLe_pairwise le a (sortLe le l) ?_ ?_ ?_
    · intro b hb
      exact htot a (List.mem_cons_self a l) b
        (List.mem_cons_of_mem a (mem_sortLe.mp hb))
    · intro b hb c hc
      exact htrans a (List.mem_cons_self a l)
        b (List.mem_cons_of_mem a (mem_sortLe.mp hb))
        c (List.mem_cons_of_mem a (mem_sortLe.mp hc))
    · exact ih
        (fun x hx y hy => htot x (List.mem_cons_of_mem a hx) y (List.mem_cons_of_mem a hy))
        (fun x hx y hy z hz => htrans x (List.mem_cons_of_mem a hx)
          y (List.mem_cons_of_mem a hy) z (List.mem_cons_of_mem a hz))

theorem jsGt_not_both {α : Type} [LinearOrder α] (x y : Option α) :
    (!jsGt x y) = true ∨ (!jsGt y x) = true := by
  rcases x with _ | a <;> rcases y with _ | b
  · left; rfl
  · left; rfl
  · left; rfl
  · by_cases h : b < a
    · right
      rw [jsGt, Bool.not_eq_true', decide_eq_false_iff_not]
      exact lt_asymm h
    · left
      rw [jsGt, Bool.not_eq_true', decide_eq_false_iff_not]
      exact h

theorem jsGt_le_trans {α : Type} [LinearOrder α] {a b c : α} :
    (!jsGt (some a) (some b)) = true → (!jsGt (some b) (some c)) = true →
      (!jsGt (some a) (some c)) = true := by
  simp only [jsGt, Bool.not_eq_true', decide_eq_false_iff_not, not_lt]
  exact fun h1 h2 => h1.trans h2

/-- A movie with only a title "B" (spec scenario). -/
def mB : Movie := { mPlain with title := some "B" }

/-- A movie with only a title "A" (spec scenario). -/
def mA : Movie := { mPlain with title := some "A" }

/-- C7: on a store of titled records, the sequence returned by
`fetchMoviesSortedByName` is non-decreasing by title under the string order
and is a permutation of the store's records (same multiset of ids). -/
theorem c7_sortedByName (s : MovieAPI)
    (ht : ∀ m ∈ s.movies, m.title.isSome = true) :
    ((fetchMoviesSortedByName s).2).Perm s.movies ∧
    (((fetchMoviesSortedByName s).2).map (fun m => m.id)).Perm
      (s.movies.map (fun m => m.id)) ∧
    List.Pairwise
      (fun m1 m2 => ∀ t1 t2, m1.title = some t1 → m2.title = some t2 → t1 ≤ t2)
      ((fetchMoviesSortedByName s).2) := by
  have hperm := sortLe_perm byTitleLe s.movies
  refine ⟨hperm, hperm.map _, ?_⟩
  have hpair := sortLe_pairwise byTitleLe s.movies
    (fun a _ b _ => jsGt_not_both a.title b.title)
    ?_
  · refine hpair.imp ?_
    intro m1 m2 h12 t1 t2 ht1 ht2
    rw [byTitleLe, ht1, ht2] at h12
    rw [jsGt, Bool.not_eq_true', decide_eq_false_iff_not] at h12
    exact not_lt.mp h12
  · intro a ha b hb c hc h1 h2
    obtain ⟨ta, hta⟩ := Option.isSome_iff_exists.mp (ht a ha)
    obtain ⟨tb, htb⟩ := Option.isSome_iff_exists.mp (ht b hb)
    obtain ⟨tc, htc⟩ := Option.isSome_iff_exists.mp (ht c hc)
    rw [byTitleLe, hta, htb] at h1
    rw [byTitleLe, htb, htc] at h2
    rw [byTitleLe, hta, htc]
    exact jsGt_le_trans h1 h2

/-- Witness for C7 on the spec's two-record scenario. -/
theorem c7_sortedByName_witness :
    ((fetchMoviesSortedByName (construct [mB, mA] gen3)).2).Perm
      (construct [mB, mA] gen3).movies ∧
    (((fetchMoviesSortedByName (construct [mB, mA] gen3)).2).map (fun m => m.id)).Perm
      ((construct [mB, mA] gen3).movies.map (fun m => m.id)) ∧
    List.Pairwise
      (fun m1 m2 => ∀ t1 t2, m1.title = some t1 → m2.title = some t2 → t1 ≤ t2)
      ((fetchMoviesSortedByName (construct [mB, mA] gen3)).2) :=
  c7_sortedByName (construct [mB, mA] gen3) (by decide)

/-- Non-strict rating comparison between two records, read off their
(possibly absent) `rating` fields. -/
def ratingLeP (m1 m2 : Movie) : Prop :=
  ∀ r1 r2, m1.rating = some r1 → m2.rating = some r2 → r1 ≤ r2

theorem fetchTopBot2_len (s : MovieAPI) :
    ((fetchTopBot2 s).2).length =
      (s.movies.length - (s.movies.length - 2)) + min 2 s.movies.length := by
  simp [fetchTopBot2, length_sortLe]

/-- C2 (amended): `fetchTopBot2` sorts the store ascending by rating in place;
its return value is the last-2 slice followed by the first-2 slice of the
sorted store, which has `2 * min 2 n` elements; when the store has at least 4
records this is the 2 highest-rated followed by the 2 lowest-rated records,
4 elements in all.  Stores are assumed to carry ratings on every record, as
every record the API builds does. -/
theorem c2_topBot2 (s : MovieAPI)
    (hr : ∀ m ∈ s.movies, m.rating.isSome = true) :
    ((fetchTopBot2 s).1.movies).Perm s.movies ∧
    List.Pairwise ratingLeP ((fetchTopBot2 s).1.movies) ∧
    (fetchTopBot2 s).2 =
      ((fetchTopBot2 s).1.movies).drop (s.movies.length - 2)
        ++ ((fetchTopBot2 s).1.movies).take 2 ∧
    ((fetchTopBot2 s).2).length =
      (s.movies.length - (s.movies.length - 2)) + min 2 s.movies.length ∧
    (4 ≤ s.movies.length →
      ((fetchTopBot2 s).2).length = 4 ∧
      (∀ m' ∈ ((fetchTopBot2 s).1.movies).take (s.movies.length - 2),
        ∀ m ∈ ((fetchTopBot2 s).1.movies).drop (s.movies.length - 2),
          ratingLeP m' m) ∧
      (∀ m ∈ ((fetchTopBot2 s).1.movies).take 2,
        ∀ m' ∈ ((fetchTopBot2 s).1.movies).drop 2, ratingLeP m m')) := by
  have hperm : ((fetchTopBot2 s).1.movies).Perm s.movies := sortLe_perm byRatingLe s.movies
  have htrans : ∀ a ∈ s.movies, ∀ b ∈ s.movies, ∀ c ∈ s.movies,
      byRatingLe a b = true → byRatingLe b c = true → byRatingLe a c = true := by
    intro a ha b hb c hc h1 h2
    obtain ⟨ra, hra⟩ := Option.isSome_iff_exists.mp (hr a ha)
    obtain ⟨rb, hrb⟩ := Option.isSome_iff_exists.mp (hr b hb)
    obtain ⟨rc, hrc⟩ := Option.isSome_iff_exists.mp (hr c hc)
    rw [byRatingLe, hra, hrb] at h1
    rw [byRatingLe, hrb, hrc] at h2
    rw [byRatingLe, hra, hrc]
    exact jsGt_le_trans h1 h2
  have hpair := sortLe_pairwise byRatingLe s.movies
    (fun a _ b _ => jsGt_not_both a.rating b.rating) htrans
  have hpairP : List.Pairwise ratingLeP ((fetchTopBot2 s).1.movies) := by
    refine hpair.imp ?_
    intro m1 m2 h12 r1 r2 hr1 hr2
    rw [byRatingLe, hr1, hr2] at h12
    rw [jsGt, Bool.not_eq_true', decide_eq_false_iff_not] at h12
    exact not_lt.mp h12
  have hcross : ∀ k : Nat,
      ∀ m' ∈ ((fetchTopBot2 s).1.movies).take k,
      ∀ m ∈ ((fetchTopBot2 s).1.movies).drop k, ratingLeP m' m := by
    intro k
    have h := hpairP
    rw [← List.take_append_drop k ((fetchTopBot2 s).1.movies)] at h
    exact (List.pairwise_append.mp h).2.2
  refine ⟨hperm, hpairP, ?_, fetchTopBot2_len s, ?_⟩
  · simp [fetchTopBot2, length_sortLe]
  · intro h4
    refine ⟨?_, hcross (s.movies.length - 2), hcross 2⟩
    rw [fetchTopBot2_len]
    omega

/-- C2 counterexample: on a 2-record store (fewer than 4 records),
`fetchTopBot2` returns 4 elements, not fewer than 4. -/
theorem c2_topBot2_cex :
    (construct [mPlain, mPlain] gen3).movies.length = 2 ∧
    ((fetchTopBot2 (construct [mPlain, mPlain] gen3)).2).length = 4 ∧
    ¬ ((fetchTopBot2 (construct [mPlain, mPlain] gen3)).2).length < 4 := by
  have h2 : (construct [mPlain, mPlain] gen3).movies.length = 2 := rfl
  have hl := fetchTopBot2_len (construct [mPlain, mPlain] gen3)
  rw [h2] at hl
  refine ⟨h2, ?_, ?_⟩ <;> omega

/-- Witness for C2 (amended) on a 4-record store. -/
theorem c2_topBot2_witness :
    ((fetchTopBot2 (construct [mPlain, mPlain, mPlain, mPlain] gen3)).1.movies).Perm
      (construct [mPlain, mPlain, mPlain, mPlain] gen3).movies ∧
    List.Pairwise ratingLeP
      ((fetchTopBot2 (construct [mPlain, mPlain, mPlain, mPlain] gen3)).1.movies) ∧
    (fetchTopBot2 (construct [mPlain, mPlain, mPlain, mPlain] gen3)).2 =
      ((fetchTopBot2 (construct [mPlain, mPlain, mPlain, mPlain] gen3)).1.movies).drop
          ((construct [mPlain, mPlain, mPlain, mPlain] gen3).movies.length - 2)
        ++ ((fetchTopBot2 (construct [mPlain, mPlain, mPlain, mPlain] gen3)).1.movies).take 2 ∧
    ((fetchTopBot2 (construct [mPlain, mPlain, mPlain, mPlain] gen3)).2).length =
      ((construct [mPlain, mPlain, mPlain, mPlain] gen3).movies.length -
        ((construct [mPlain, mPlain, mPlain, mPlain] gen3).movies.length - 2)) +
        min 2 (construct [mPlain, mPlain, mPlain, mPlain] gen3).movies.length ∧
    (4 ≤ (construct [mPlain, mPlain, mPlain, mPlain] gen3).movies.length →
      ((fetchTopBot2 (construct [mPlain, mPlain, mPlain, mPlain] gen3)).2).length = 4 ∧
      (∀ m' ∈ ((fetchTopBot2 (construct [mPlain, mPlain, mPlain, mPlain] gen3)).1.movies).take
            ((construct [mPlain, mPlain, mPlain, mPlain] gen3).movies.length - 2),
        ∀ m ∈ ((fetchTopBot2 (construct [mPlain, mPlain, mPlain, mPlain] gen3)).1.movies).drop
            ((construct [mPlain, mPlain, mPlain, mPlain] gen3).movies.length - 2),
          ratingLeP m' m) ∧
      (∀ m ∈ ((fetchTopBot2 (construct [mPlain, mPlain, mPlain, mPlain] gen3)).1.movies).take 2,
        ∀ m' ∈ ((fetchTopBot2 (construct [mPlain, mPlain, mPlain, mPlain] gen3)).1.movies).drop 2,
          ratingLeP m m')) :=
  c2_topBot2 (construct [mPlain, mPlain, mPlain, mPlain] gen3) (by decide)

theorem constructLoop_getElem (gen : Nat → ℚ) (ms : List Movie) :
    ∀ (idx i : Nat), ((constructLoop gen idx ms).2)[i]? =
      ms[i]?.map (fun m => stamp (idx + i) (gen (idx + i)) m) := by
  induction ms with
  | nil => intro idx i; simp [constructLoop]
  | cons m ms ih =>
    intro idx i
    cases i with
    | zero => simp [constructLoop]
    | succ i =>
      have heq : idx + 1 + i = idx + (i + 1) := by omega
      simpa [constructLoop, heq] using ih (idx + 1) i

theorem construct_getElem (ms : List Movie) (gen : Nat → ℚ) (i : Nat) :
    (construct ms gen).movies[i]? = ms[i]?.map (fun m => stamp i (gen i) m) := by
  rw [construct]
  simpa using constructLoop_getElem gen ms 0 i

theorem constructLoop_fst (gen : Nat → ℚ) (ms : List Movie) :
    ∀ idx : Nat, (constructLoop gen idx ms).1 = idx + ms.length := by
  induction ms with
  | nil => intro idx; simp [constructLoop]
  | cons m ms ih => intro idx; simp [constructLoop, ih (idx + 1)]; omega

theorem constructLoop_length (gen : Nat → ℚ) (ms : List Movie) :
    ∀ idx : Nat, ((constructLoop gen idx ms).2).length = ms.length := by
  induction ms with
  | nil => intro idx; simp [constructLoop]
  | cons m ms ih => intro idx; simp [constructLoop, ih (idx + 1)]

theorem construct_idCount (ms : List Movie) (gen : Nat → ℚ) :
    (construct ms gen).idCount = ms.length := by
  rw [construct]; simpa using constructLoop_fst gen ms 0

theorem construct_length (ms : List Movie) (gen : Nat → ℚ) :
    (construct ms gen).movies.length = ms.length := by
  rw [construct]; exact constructLoop_length gen ms 0

theorem constructLoop_ids (gen : Nat → ℚ) (ms : List Movie)
    (h : ∀ m ∈ ms, m.id = none) :
    ∀ idx : Nat, ((constructLoop gen idx ms).2).map (fun m => m.id) =
      (List.range' idx ms.length).map some := by
  induction ms with
  | nil => intro idx; simp [constructLoop]
  | cons m ms ih =>
    intro idx
    have hm : m.id = none := h m (List.mem_cons_self m ms)
    simp [constructLoop, List.range'_succ, stamp, hm,
      ih (fun x hx => h x (List.mem_cons_of_mem m hx)) (idx + 1)]

theorem construct_ids (ms : List Movie) (gen : Nat → ℚ)
    (h : ∀ m ∈ ms, m.id = none) :
    (construct ms gen).movies.map (fun m => m.id) =
      (List.range ms.length).map some := by
  rw [construct, List.range_eq_range']
  exact constructLoop_ids gen ms h 0

/-- C1 (amended): in both the constructor and `addMovie`, the spread
`{ id: counter, rating: generated, ...caller }` lets same-named
caller-supplied fields take precedence: the stored record's id is the
caller's id when present (the counter value only otherwise), and likewise
for the rating. -/
theorem c1_stamp_precedence (ms : List Movie) (gen : Nat → ℚ) (i : Nat)
    (s : MovieAPI) (rv : ℚ) (m : Movie) :
    (construct ms gen).movies[i]? = ms[i]?.map (fun mv => stamp i (gen i) mv) ∧
    (addMovie s rv m).movies = s.movies ++ [stamp s.idCount rv m] ∧
    (stamp i rv m).id = some (m.id.getD i) ∧
    (stamp i rv m).rating = some (m.rating.getD rv) :=
  ⟨construct_getElem ms gen i, rfl, rfl, rfl⟩

/-- C1 counterexample: initializing with a record that already carries
`id: 99` stores id 99, not the counter value 0. -/
theorem c1_stamp_precedence_cex :
    (construct [mId99] gen3).movies.map (fun m => m.id) = [some 99] ∧
    (construct [mId99] gen3).movies.map (fun m => m.id) ≠ [some 0] ∧
    (construct [mId99] gen3).idCount = 1 := by
  refine ⟨rfl, by decide, rfl⟩

theorem addAll_spec (adds : List (ℚ × Movie)) :
    ∀ s : MovieAPI, s.idCount = s.movies.length →
      (∀ p ∈ adds, p.2.id = none) →
      (addAll s adds).idCount = s.idCount + adds.length ∧
      (addAll s adds).movies.length = s.movies.length + adds.length ∧
      (adds ≠ [] → ∃ mlast, (addAll s adds).movies.getLast? = some mlast ∧
        mlast.id = some (s.idCount + adds.length - 1)) := by
  induction adds with
  | nil => intro s hid hadds; simp [addAll]
  | cons p rest ih =>
    intro s hid hadds
    rcases p with ⟨rv, m⟩
    have hm : m.id = none := hadds (rv, m) (List.mem_cons_self _ rest)
    have hid' : (addMovie s rv m).idCount = (addMovie s rv m).movies.length := by
      simp [addMovie, hid]
    obtain ⟨h1, h2, h3⟩ :=
      ih (addMovie s rv m) hid' (fun q hq => hadds q (List.mem_cons_of_mem _ hq))
    refine ⟨?_, ?_, ?_⟩
    · show (addAll (addMovie s rv m) rest).idCount = _
      rw [h1]; simp [addMovie]; omega
    · show (addAll (addMovie s rv m) rest).movies.length = _
      rw [h2]; simp [addMovie]; omega
    · intro _
      rcases hrest : rest with _ | ⟨q, rest'⟩
      · refine ⟨stamp s.idCount rv m, ?_, ?_⟩
        · show (addMovie s rv m).movies.getLast? = _
          rw [addMovie]
          exact List.getLast?_concat _
        · rw [stamp, hm]
          simp
      · subst hrest
        obtain ⟨mlast, hg, hidl⟩ := h3 (by simp)
        refine ⟨mlast, hg, ?_⟩
        rw [hidl]
        simp only [addMovie, List.length_cons]
        congr 1
        omega

/-- C5 (amended): provided no initial or added record carries its own `id`
field, initializing with n records assigns ids 0..n-1 in input order, and k
subsequent `addMovie` calls (no deletions) leave a store of size n+k whose
last (most recently added) record has id n+k-1. -/
theorem c5_ids_sequence (ms : List Movie) (gen : Nat → ℚ)
    (adds : List (ℚ × Movie))
    (h1 : ∀ m ∈ ms, m.id = none) (h2 : ∀ p ∈ adds, p.2.id = none)
    (h3 : 1 ≤ adds.length) :
    (addAll (construct ms gen) adds).movies.length = ms.length + adds.length ∧
    (∃ mlast, (addAll (construct ms gen) adds).movies.getLast? = some mlast ∧
      mlast.id = some (ms.length + adds.length - 1)) ∧
    (construct ms gen).movies.map (fun m => m.id) =
      (List.range ms.length).map some := by
  have hid : (construct ms gen).idCount = (construct ms gen).movies.length := by
    rw [construct_idCount, construct_length]
  obtain ⟨ha1, ha2, ha3⟩ := addAll_spec adds (construct ms gen) hid h2
  refine ⟨?_, ?_, construct_ids ms gen h1⟩
  · rw [ha2, construct_length]
  · have hne : adds ≠ [] := by
      cases adds
      · simp at h3
      · simp
    obtain ⟨mlast, hg, hidl⟩ := ha3 hne
    exact ⟨mlast, hg, by rw [hidl, construct_idCount]⟩

/-- C5 counterexample: an initial record carrying `id: 99` defeats the
"ids are exactly 0..n-1" clause. -/
theorem c5_ids_sequence_cex :
    (construct [mId99] gen3).movies.map (fun m => m.id) ≠
      (List.range ([mId99].length)).map some ∧
    (construct [mId99] gen3).movies.map (fun m => m.id) = [some 99] := by
  exact ⟨by decide, rfl⟩

/-- Witness for C5 (amended): one id-free initial record plus one id-free add. -/
theorem c5_ids_sequence_witness :
    (addAll (construct [mPlain] gen3) [((3 : ℚ), mPlain)]).movies.length =
      [mPlain].length + [((3 : ℚ), mPlain)].length ∧
    (∃ mlast,
      (addAll (construct [mPlain] gen3) [((3 : ℚ), mPlain)]).movies.getLast?
        = some mlast ∧
      mlast.id = some ([mPlain].length + [((3 : ℚ), mPlain)].length - 1)) ∧
    (construct [mPlain] gen3).movies.map (fun m => m.id) =
      (List.range ([mPlain].length)).map some :=
  c5_ids_sequence [mPlain] gen3 [((3 : ℚ), mPlain)]
    (by decide) (by decide) (by decide)

theorem delete_decomp (l : List Movie) (idv : Nat)
    (hnd : (l.map (fun m => m.id)).Nodup)
    (hex : ∃ m ∈ l, m.id = some idv) :
    ∃ l₁ x l₂, l = l₁ ++ x :: l₂ ∧ x.id = some idv ∧
      l.filter (fun m => !(m.id == some idv)) = l₁ ++ l₂ := by
  induction l with
  | nil =>
    rcases hex with ⟨m, hm, _⟩
    cases hm
  | cons a l ih =>
    rw [List.map_cons, List.nodup_cons] at hnd
    by_cases ha : a.id = some idv
    · refine ⟨[], a, l, rfl, ha, ?_⟩
      rw [List.filter_cons]
      have hfalse : (!(a.id == some idv)) = false := by simp [ha]
      rw [hfalse, if_neg (by simp)]
      simp only [List.nil_append]
      rw [List.filter_eq_self]
      intro m hm
      have : m.id ≠ some idv := by
        intro hmid
        exact hnd.1 (by rw [ha, ← hmid]; exact List.mem_map_of_mem _ hm)
      simp [this]
    · have hex' : ∃ m ∈ l, m.id = some idv := by
        rcases hex with ⟨m, hm, hmid⟩
        rcases List.mem_cons.mp hm with rfl | hm'
        · exact absurd hmid ha
        · exact ⟨m, hm', hmid⟩
      obtain ⟨l₁, x, l₂, hsplit, hx, hfilt⟩ := ih hnd.2 hex'
      refine ⟨a :: l₁, x, l₂, by rw [hsplit]; rfl, hx, ?_⟩
      rw [List.filter_cons]
      have htrue : (!(a.id == some idv)) = true := by simp [ha]
      rw [htrue, if_pos rfl, hfilt]
      rfl

/-- C3 (amended): on a store whose record ids are pairwise distinct (the
documented invariant), deleting an existing id removes exactly that one
record, shrinking the store by one and keeping the remaining order, with
nothing logged; deleting a non-existent id leaves the store untouched and
logs the NotFound diagnostic. -/
theorem c3_deleteById (s : MovieAPI) (idv : Nat)
    (hnd : (s.movies.map (fun m => m.id)).Nodup) :
    ((∃ m ∈ s.movies, m.id = some idv) →
      ∃ l₁ x l₂, s.movies = l₁ ++ x :: l₂ ∧ x.id = some idv ∧
        (deleteMovieById s idv).1.movies = l₁ ++ l₂ ∧
        (deleteMovieById s idv).1.movies.length + 1 = s.movies.length ∧
        (deleteMovieById s idv).2 = []) ∧
    ((∀ m ∈ s.movies, m.id ≠ some idv) →
      (deleteMovieById s idv).1 = s ∧
      (deleteMovieById s idv).2 = ["Invalid movie id"]) := by
  constructor
  · intro hex
    have hres : deleteMovieById s idv =
        ({ s with movies := s.movies.filter (fun m => !(m.id == some idv)) }, []) := by
      rw [deleteMovieById, if_neg]
      rw [Option.isNone_iff_eq_none, List.find?_eq_none]
      push_neg
      rcases hex with ⟨m, hm, hid⟩
      exact ⟨m, hm, by simp [hid]⟩
    obtain ⟨l₁, x, l₂, hsplit, hx, hfilt⟩ := delete_decomp s.movies idv hnd hex
    have hlen : s.movies.length = l₁.length + l₂.length + 1 := by
      rw [hsplit]; simp; omega
    refine ⟨l₁, x, l₂, hsplit, hx, ?_, ?_, ?_⟩
    · rw [hres]; exact hfilt
    · rw [hres]
      show (s.movies.filter (fun m => !(m.id == some idv))).length + 1 = _
      rw [hfilt, hlen, List.length_append]
    · rw [hres]
  · intro hall
    have hfind : s.movies.find? (fun m => m.id == some idv) = none := by
      rw [List.find?_eq_none]
      intro m hm
      simp [hall m hm]
    rw [deleteMovieById, hfind]
    exact ⟨rfl, rfl⟩

/-- C3 counterexample: a store holding two records that both carry id 0
(built by initializing with caller records that supply `id: 0`) loses both
of them on `deleteMovieById 0` — the size drops by 2, not 1. -/
theorem c3_deleteById_cex :
    (∃ m ∈ (construct [mId0, mId0] gen3).movies, m.id = some 0) ∧
    (construct [mId0, mId0] gen3).movies.length = 2 ∧
    (deleteMovieById (construct [mId0, mId0] gen3) 0).1.movies.length = 0 := by
  decide

/-- Witness for C3 (amended) on a two-record store with distinct ids. -/
theorem c3_deleteById_witness :
    ((∃ m ∈ (construct [mPlain, mPlain] gen3).movies, m.id = some 0) →
      ∃ l₁ x l₂, (construct [mPlain, mPlain] gen3).movies = l₁ ++ x :: l₂ ∧
        x.id = some 0 ∧
        (deleteMovieById (construct [mPlain, mPlain] gen3) 0).1.movies = l₁ ++ l₂ ∧
        (deleteMovieById (construct [mPlain, mPlain] gen3) 0).1.movies.length + 1
          = (construct [mPlain, mPlain] gen3).movies.length ∧
        (deleteMovieById (construct [mPlain, mPlain] gen3) 0).2 = []) ∧
    ((∀ m ∈ (construct [mPlain, mPlain] gen3).movies, m.id ≠ some 0) →
      (deleteMovieById (construct [mPlain, mPlain] gen3) 0).1
        = construct [mPlain, mPlain] gen3 ∧
      (deleteMovieById (construct [mPlain, mPlain] gen3) 0).2
        = ["Invalid movie id"]) :=
  c3_deleteById (construct [mPlain, mPlain] gen3) 0 (by decide)

theorem edit_find (p : Movie → Bool) (f : Movie → Movie)
    (hp : ∀ m, p (f m) = p m) (l : List Movie)
    (hex : ∃ m ∈ l, p m = true) :
    ∃ i r₀, findIndex p l = some i ∧ l[i]? = some r₀ ∧ p r₀ = true ∧
      (modifyAt f i l).find? p = some (f r₀) ∧ l.find? p = some r₀ ∧
      ∀ j, j ≠ i → (modifyAt f i l)[j]? = l[j]? := by
  induction l with
  | nil =>
    rcases hex with ⟨m, hm, _⟩
    cases hm
  | cons a l ih =>
    by_cases hpa : p a = true
    · refine ⟨0, a, ?_, by simp, hpa, ?_, ?_, ?_⟩
      · simp [findIndex, hpa]
      · show (f a :: l).find? p = some (f a)
        exact List.find?_cons_of_pos _ (by rw [hp a]; exact hpa)
      · exact List.find?_cons_of_pos _ hpa
      · intro j hj
        cases j with
        | zero => exact absurd rfl hj
        | succ j =>
          show (f a :: l)[j + 1]? = (a :: l)[j + 1]?
          simp
    · have hex' : ∃ m ∈ l, p m = true := by
        rcases hex with ⟨m, hm, hpm⟩
        rcases List.mem_cons.mp hm with rfl | hm'
        · exact absurd hpm hpa
        · exact ⟨m, hm', hpm⟩
      obtain ⟨i, r₀, hfi, hget, hpr, hfind1, hfind2, hrest⟩ := ih hex'
      refine ⟨i + 1, r₀, ?_, ?_, hpr, ?_, ?_, ?_⟩
      · simp [findIndex, hpa, hfi]
      · simpa using hget
      · show (a :: modifyAt f i l).find? p = some (f r₀)
        rw [List.find?_cons_of_neg _ hpa]
        exact hfind1
      · rw [List.find?_cons_of_neg _ hpa]
        exact hfind2
      · intro j hj
        cases j with
        | zero =>
          show (a :: modifyAt f i l)[0]? = (a :: l)[0]?
          simp
        | succ j =>
          have hji : j ≠ i := fun h => hj (by rw [h])
          show (a :: modifyAt f i l)[j + 1]? = (a :: l)[j + 1]?
          simpa using hrest j hji

/-- C9: when the store contains a record with the given id,
`editMovieTitleById` overwrites exactly that record's title: a subsequent
`findMovieById` returns it with the new title and every other field
unchanged, records at every other position are untouched, and nothing is
logged. -/
theorem c9_editTitle (s : MovieAPI) (idv : Nat) (t : String)
    (hex : ∃ m ∈ s.movies, m.id = some idv) :
    ∃ i r₀, findIndex (fun m => m.id == some idv) s.movies = some i ∧
      s.movies[i]? = some r₀ ∧ r₀.id = some idv ∧
      (findMovieById s idv).1 = some r₀ ∧
      (findMovieById (editMovieTitleById s idv t).1 idv).1 = some (setTitle t r₀) ∧
      (setTitle t r₀).title = some t ∧
      (setTitle t r₀).id = r₀.id ∧ (setTitle t r₀).rating = r₀.rating ∧
      (setTitle t r₀).description = r₀.description ∧
      (setTitle t r₀).subtitle = r₀.subtitle ∧
      (setTitle t r₀).thumb = r₀.thumb ∧
      (setTitle t r₀).genre = r₀.genre ∧
      (setTitle t r₀).extra = r₀.extra ∧
      (∀ j, j ≠ i → (editMovieTitleById s idv t).1.movies[j]? = s.movies[j]?) ∧
      (editMovieTitleById s idv t).2 = [] := by
  obtain ⟨i, r₀, hfi, hget, hpr, hfind1, hfind2, hrest⟩ :=
    edit_find (fun m => m.id == some idv) (setTitle t) (fun m => rfl) s.movies
      (by rcases hex with ⟨m, hm, hid⟩; exact ⟨m, hm, by simp [hid]⟩)
  have hedit : editMovieTitleById s idv t =
      ({ s with movies := modifyAt (setTitle t) i s.movies }, []) := by
    rw [editMovieTitleById, hfi]
  refine ⟨i, r₀, hfi, hget, by simpa using hpr, ?_, ?_, rfl, rfl, rfl, rfl,
    rfl, rfl, rfl, rfl, ?_, by rw [hedit]⟩
  · rw [findMovieById, hfind2]
  · rw [hedit]
    show (findMovieById { s with movies := modifyAt (setTitle t) i s.movies } idv).1 = _
    rw [findMovieById]
    rw [hfind1]
  · intro j hj
    rw [hedit]
    exact hrest j hj

/-- Witness for C9 on a one-record store, editing the title to "X". -/
theorem c9_editTitle_witness :
    ∃ i r₀,
      findIndex (fun m => m.id == some 0) (construct [mPlain] gen3).movies = some i ∧
      (construct [mPlain] gen3).movies[i]? = some r₀ ∧ r₀.id = some 0 ∧
      (findMovieById (construct [mPlain] gen3) 0).1 = some r₀ ∧
      (findMovieById (editMovieTitleById (construct [mPlain] gen3) 0 "X").1 0).1
        = some (setTitle "X" r₀) ∧
      (setTitle "X" r₀).title = some "X" ∧
      (setTitle "X" r₀).id = r₀.id ∧ (setTitle "X" r₀).rating = r₀.rating ∧
      (setTitle "X" r₀).description = r₀.description ∧
      (setTitle "X" r₀).subtitle = r₀.subtitle ∧
      (setTitle "X" r₀).thumb = r₀.thumb ∧
      (setTitle "X" r₀).genre = r₀.genre ∧
      (setTitle "X" r₀).extra = r₀.extra ∧
      (∀ j, j ≠ i →
        (editMovieTitleById (construct [mPlain] gen3) 0 "X").1.movies[j]?
          = (construct [mPlain] gen3).movies[j]?) ∧
      (editMovieTitleById (construct [mPlain] gen3) 0 "X").2 = [] :=
  c9_editTitle (construct [mPlain] gen3) 0 "X" (by decide)

theorem map_modifyAt {α β : Type} (f : α → α) (g : α → β)
    (h : ∀ a, g (f a) = g a) :
    ∀ (i : Nat) (l : List α), (modifyAt f i l).map g = l.map g := by
  intro i l
  induction l generalizing i with
  | nil => cases i <;> rfl
  | cons a l ih =>
    cases i with
    | zero => simp [modifyAt, h a]
    | succ i => simp [modifyAt, ih i]

theorem inv_sortLe (le : Movie → Movie → Bool) (s : MovieAPI)
    (h : (s.movies.map (fun m => m.id)).Nodup ∧
      ∀ m ∈ s.movies, ∃ k, m.id = some k ∧ k < s.idCount) :
    ((sortLe le s.movies).map (fun m => m.id)).Nodup ∧
      ∀ m ∈ sortLe le s.movies, ∃ k, m.id = some k ∧ k < s.idCount := by
  constructor
  · exact (((sortLe_perm le s.movies).map (fun m => m.id)).symm).nodup h.1
  · intro m hm
    exact h.2 m (mem_sortLe.mp hm)

/-- C4 (amended): provided caller-supplied records never carry their own `id`
field, every state reachable through the API has pairwise-distinct record
ids, and every stored id lies strictly below the monotone `idCount` counter
(so an id freed by a deletion is never handed out again). -/
theorem c4_id_invariant (s : MovieAPI)
    (h : ReachesVia (fun m => m.id = none) s) :
    (s.movies.map (fun m => m.id)).Nodup ∧
    ∀ m ∈ s.movies, ∃ k, m.id = some k ∧ k < s.idCount := by
  induction h with
  | init ms gen hok =>
    constructor
    · rw [construct_ids ms gen hok]
      exact (List.nodup_range ms.length).map (fun a b hab => Option.some.inj hab)
    · intro m hm
      have hmem : m.id ∈ (List.range ms.length).map some := by
        rw [← construct_ids ms gen hok]
        exact List.mem_map_of_mem _ hm
      rcases List.mem_map.mp hmem with ⟨k, hk, hke⟩
      exact ⟨k, hke.symm, by rw [construct_idCount]; exact List.mem_range.mp hk⟩
  | add rv m hok hprev ih =>
    rename_i sp
    obtain ⟨hnd, hbound⟩ := ih
    have hsid : (stamp sp.idCount rv m).id = some sp.idCount := by
      simp [stamp, hok]
    constructor
    · show ((sp.movies ++ [stamp sp.idCount rv m]).map (fun m => m.id)).Nodup
      rw [List.map_append]
      rw [List.nodup_append]
      refine ⟨hnd, by simp, ?_⟩
      intro a ha hb
      simp only [List.map_cons, List.map_nil, List.mem_cons, List.not_mem_nil,
        or_false, hsid] at hb
      rcases List.mem_map.mp ha with ⟨m', hm', he⟩
      obtain ⟨k, hk, hlt⟩ := hbound m' hm'
      rw [← he, hk] at hb
      have : k = sp.idCount := Option.some.inj hb
      omega
    · intro m' hm'
      rcases List.mem_append.mp hm' with h1 | h2
      · obtain ⟨k, hk, hlt⟩ := hbound m' h1
        refine ⟨k, hk, ?_⟩
        show k < sp.idCount + 1
        omega
      · rw [List.mem_singleton.mp h2]
        refine ⟨sp.idCount, hsid, ?_⟩
        show sp.idCount < sp.idCount + 1
        omega
  | del idv hprev ih =>
    rename_i sp
    obtain ⟨hnd, hbound⟩ := ih
    by_cases hguard : (sp.movies.find? (fun m => m.id == some idv)).isNone = true
    · rw [deleteMovieById, if_pos hguard]
      exact ⟨hnd, hbound⟩
    · rw [deleteMovieById, if_neg hguard]
      constructor
      · exact ((List.filter_sublist sp.movies).map (fun m => m.id)).nodup hnd
      · intro m hm
        exact hbound m (List.mem_of_mem_filter hm)
  | edit idv t hprev ih =>
    rename_i sp
    obtain ⟨hnd, hbound⟩ := ih
    rcases hfi : findIndex (fun m => m.id == some idv) sp.movies with _ | i
    · rw [editMovieTitleById, hfi]
      exact ⟨hnd, hbound⟩
    · rw [editMovieTitleById, hfi]
      have hids : (modifyAt (setTitle t) i sp.movies).map (fun m => m.id)
          = sp.movies.map (fun m => m.id) :=
        map_modifyAt (setTitle t) (fun m => m.id) (fun a => rfl) i sp.movies
      constructor
      · show ((modifyAt (setTitle t) i sp.movies).map (fun m => m.id)).Nodup
        rw [hids]
        exact hnd
      · intro m hm
        have hmem : m.id ∈ sp.movies.map (fun m => m.id) := by
          rw [← hids]
          exact List.mem_map_of_mem _ hm
        rcases List.mem_map.mp hmem with ⟨m₀, hm₀, he⟩
        obtain ⟨k, hk, hlt⟩ := hbound m₀ hm₀
        exact ⟨k, by rw [← he]; exact hk, hlt⟩
  | sortName hprev ih =>
    rename_i sp
    exact inv_sortLe byTitleLe sp ih
  | topBot hprev ih =>
    rename_i sp
    exact inv_sortLe byRatingLe sp ih
  | top3 hprev ih =>
    rename_i sp
    exact inv_sortLe byRatingGe sp ih
  | botToTop hprev ih =>
    rename_i sp
    exact inv_sortLe byRatingLe sp ih

/-- C4 counterexample: the claim as stated fails once a caller record
supplies its own id — adding `{ id: 0 }` to a store that already holds id 0
is reachable and yields duplicate ids. -/
theorem c4_id_invariant_cex :
    Reaches (addMovie (construct [mPlain] gen3) 3 mId0) ∧
    ¬ ((addMovie (construct [mPlain] gen3) 3 mId0).movies.map
        (fun m => m.id)).Nodup := by
  constructor
  · exact ReachesVia.add 3 mId0 trivial
      (ReachesVia.init [mPlain] gen3 (fun _ _ => trivial))
  · decide

/-- Witness for C4 (amended): a construct followed by one id-free add. -/
theorem c4_id_invariant_witness :
    ((addMovie (construct [mPlain] gen3) 3 mPlain).movies.map
      (fun m => m.id)).Nodup ∧
    ∀ m ∈ (addMovie (construct [mPlain] gen3) 3 mPlain).movies,
      ∃ k, m.id = some k ∧
        k < (addMovie (construct [mPlain] gen3) 3 mPlain).idCount :=
  c4_id_invariant (addMovie (construct [mPlain] gen3) 3 mPlain)
    (ReachesVia.add 3 mPlain rfl
      (ReachesVia.init [mPlain] gen3 (by decide)))

/-- C7 counterexample: with an untitled record present the comparator
returns -1 against everything, so sorting `[title "B", no title, title "A"]`
leaves the "B" record before the "A" record — the output is not
non-decreasing by title. -/
theorem c7_sortedByName_cex :
    ¬ List.Pairwise
      (fun m1 m2 => ∀ t1 t2, m1.title = some t1 → m2.title = some t2 → t1 ≤ t2)
      ((fetchMoviesSortedByName (construct [mB, mPlain, mA] gen3)).2) := by
  intro h
  have hout : (fetchMoviesSortedByName (construct [mB, mPlain, mA] gen3)).2
      = [stamp 0 (gen3 0) mB, stamp 1 (gen3 1) mPlain, stamp 2 (gen3 2) mA] := rfl
  rw [hout] at h
  rcases List.pairwise_cons.mp h with ⟨hhead, _⟩
  have hBA := hhead (stamp 2 (gen3 2) mA)
    (List.mem_cons_of_mem _ (List.mem_singleton.mpr rfl)) "B" "A" rfl rfl
  have hnot : ¬ (("B" : String) ≤ "A") := by
    rw [String.le_iff_toList_le]
    decide
  exact hnot hBA
